import Mathlib

/-
Verification of the distributed generational checkpoint extension
(chainermn/extensions/checkpoint.py) via a shallow embedding.

Strings from the Python source are modelled as lists of characters;
Python int values as integers; Python exceptions as an explicit error
type carried in Except.  Filesystem state, where a claim needs it, is a
map from names to file contents.  Each definition mirrors one function
of the source file, keeping its control flow.
-/

namespace DistCpr

/-- Python exception kinds raised by the checkpoint module. -/
inductive PyErr
  | valueError
  | typeError
  | runtimeError
  | indexError
  | ioError
deriving DecidableEq

/-- Python string, modelled as its character list. -/
abbrev PyStr := List Char

/-- Content of one on-disk file: either fully written payload or a
not yet fully written temporary. -/
inductive FileContent
  | incomplete
  | full (payload : Nat)
deriving DecidableEq

/-- A directory of files: names mapped to contents. -/
abbrev FS := PyStr → Option FileContent

/-- The decimal digit character for n, used with n below 10. -/
def digitChar (n : Nat) : Char := Char.ofNat (48 + n)

/-- Numeric value of an ASCII decimal digit character, none otherwise. -/
def charVal (c : Char) : Option Nat :=
  if 48 ≤ c.toNat ∧ c.toNat ≤ 57 then some (c.toNat - 48) else none

/-- Fuel-driven digit rendering; the fuel only forces structural
termination and is immaterial once it is at least n. -/
def natDigitsAux : Nat → Nat → List Char
  | 0, n => [digitChar n]
  | fuel + 1, n =>
      if n < 10 then [digitChar n]
      else natDigitsAux fuel (n / 10) ++ [digitChar (n % 10)]

/-- Decimal digit string of a natural number, as produced by the
Python format specifier {:d}. -/
def natDigits (n : Nat) : List Char := natDigitsAux n n

theorem natDigitsAux_fuel (f1 : Nat) : ∀ f2 n : Nat, n ≤ f1 → n ≤ f2 →
    natDigitsAux f1 n = natDigitsAux f2 n := by
  induction f1 with
  | zero =>
      intro f2 n h1 _
      interval_cases n
      cases f2 <;> simp [natDigitsAux]
  | succ f1 ih =>
      intro f2 n h1 h2
      match f2 with
      | 0 =>
          interval_cases n
          simp [natDigitsAux]
      | f2 + 1 =>
          by_cases h : n < 10
          · simp [natDigitsAux, h]
          · have hd : n / 10 < n := Nat.div_lt_self (by omega) (by omega)
            simp only [natDigitsAux, if_neg h]
            rw [ih f2 (n / 10) (by omega) (by omega)]

/-- The recursive characterisation of natDigits. -/
theorem natDigits_eq (n : Nat) : natDigits n =
    if n < 10 then [digitChar n]
    else natDigits (n / 10) ++ [digitChar (n % 10)] := by
  by_cases h : n < 10
  · rw [if_pos h]
    match n, h with
    | 0, _ => rfl
    | n + 1, h => simp [natDigits, natDigitsAux, Nat.lt_of_succ_lt_succ, h]
  · rw [if_neg h]
    have hd : n / 10 < n := Nat.div_lt_self (by omega) (by omega)
    match n, h, hd with
    | n + 1, h, hd =>
        show natDigitsAux (n + 1) (n + 1) = _
        rw [natDigitsAux, if_neg h,
          natDigitsAux_fuel n ((n + 1) / 10) ((n + 1) / 10) (by omega) (by omega)]
        rfl

/-- Accumulating evaluation of a digit string, none once a non-digit
character is met. -/
def valFold : Option Nat → List Char → Option Nat
  | acc, [] => acc
  | acc, c :: cs =>
      valFold
        (match acc, charVal c with
         | some a, some v => some (10 * a + v)
         | _, _ => none) cs

/-- Value of a non-empty all-digit string, none otherwise. -/
def digitsVal (ds : List Char) : Option Nat :=
  if ds = [] then none else valFold (some 0) ds

/-- Python int() on an optionally minus-signed decimal string; none
models the ValueError raised on any other string.  Exotic accepted
forms (surrounding whitespace, underscores, unicode digits) are not
modelled; no claim touches them. -/
def pyInt (s : List Char) : Option Int :=
  match s with
  | [] => none
  | c :: cs =>
      if c = '-' then (digitsVal cs).map (fun v => -(v : Int))
      else (digitsVal (c :: cs)).map (fun v => (v : Int))

/-- Decimal rendering of an integer, as the Python format specifier
{:d} prints it. -/
def intDigits (i : Int) : List Char :=
  if i < 0 then '-' :: natDigits i.natAbs else natDigits i.toNat

/-- Python str.split on the single character dot: returns the list of
(possibly empty) fields between dots. -/
def pySplitDot : List Char → List (List Char)
  | [] => [[]]
  | c :: cs =>
      if c = '.' then [] :: pySplitDot cs
      else
        match pySplitDot cs with
        | [] => [[c]]
        | h :: t => (c :: h) :: t

/-- Source _filename: encodes one generation as name.rank.iteration
(the rank is the MPI rank of the calling process, a natural number). -/
def filename (name : PyStr) (rank : Nat) (iteration : Int) : PyStr :=
  name ++ '.' :: natDigits rank ++ '.' :: intDigits iteration

/-- Source _filenames: encode a list of iterations for one rank. -/
def filenames (name : PyStr) (rank : Nat) (iterations : List Int) : List PyStr :=
  iterations.map (filename name rank)

/-- Source _parse_filename: split on dots; a field count other than 3,
or a first field different from the run name, gives Python None
(modelled ok none); a matching name with non-integer rank or iteration
field raises ValueError from int(). -/
def parse_filename (name : PyStr) (f : PyStr) : Except PyErr (Option (PyStr × Int × Int)) :=
  match pySplitDot f with
  | [n, r, i] =>
      if n = name then
        match pyInt r, pyInt i with
        | some rv, some iv => .ok (some (n, rv, iv))
        | _, _ => .error .valueError
      else .ok none
  | _ => .ok none

/-- Boolean test that a filename decodes to a generation of this run. -/
def wellFormed (name : PyStr) (f : PyStr) : Bool :=
  match parse_filename name f with
  | .ok (some _) => true
  | _ => false

/-- The iteration field of a filename that decodes to a generation of
this run, none otherwise. -/
def parseIter (name : PyStr) (f : PyStr) : Option Int :=
  match parse_filename name f with
  | .ok (some t) => some t.2.2
  | _ => none

/-- A Python list comprehension applying a possibly-raising function
element by element, left to right, stopping at the first exception. -/
def comprehend (g : α → Except PyErr β) : List α → Except PyErr (List β)
  | [] => .ok []
  | a :: as =>
      match g a with
      | .error e => .error e
      | .ok b =>
          match comprehend g as with
          | .error e => .error e
          | .ok bs => .ok (b :: bs)

/-- Python tuple unpacking of one _parse_filename result in a
comprehension: unpacking None raises TypeError. -/
def destructIter : Option (PyStr × Int × Int) → Except PyErr Int
  | some t => .ok t.2.2
  | none => .error .typeError

/-- The iteration list of a list of filenames, as the comprehension on
line 252 of the source computes it (and as each set on lines 175-179
is computed before being turned into a set). -/
def itersListOf (name : PyStr) (files : List PyStr) : Except PyErr (List Int) :=
  match comprehend (parse_filename name) files with
  | .error e => .error e
  | .ok parsed => comprehend destructIter parsed

/-- The iteration set contributed by one rank, lines 175-179 of the
source.  A Python set is modelled as a duplicate-free list; its
internal order is irrelevant because every later use either tests
membership or sorts. -/
def itersOf (name : PyStr) (files : List PyStr) : Except PyErr (List Int) :=
  match itersListOf name files with
  | .error e => .error e
  | .ok is => .ok is.dedup

/-- Python set intersection on list-represented sets. -/
def pyInter (a b : List Int) : List Int :=
  a.filter (fun x => decide (x ∈ b))

/-- The loop on lines 177-180: fold intersection over the remaining
ranks, propagating any decode exception. -/
def interFold (name : PyStr) (acc : List Int) : List (List PyStr) → Except PyErr (List Int)
  | [] => .ok acc
  | l :: ls =>
      match itersOf name l with
      | .error e => .error e
      | .ok s => interFold name (pyInter acc s) ls

/-- Lines 175-180: the surviving iteration set before windowing — the
set from the first gathered list intersected with every further one.
Indexing an empty gather would raise IndexError; the caller guards
this case. -/
def surviving_set (name : PyStr) : List (List PyStr) → Except PyErr (List Int)
  | [] => .error .indexError
  | l0 :: rest =>
      match itersOf name l0 with
      | .error e => .error e
      | .ok s0 => interFold name s0 rest

/-- Lines 182-184: sort the surviving iterations ascending and keep the
newest cp_interval of them (a Python slice with a negative start keeps
the whole list when it is shorter). -/
def pyWindow (cp : Nat) (s : List Int) : List Int :=
  let l := s.insertionSort (fun a b => a ≤ b)
  l.drop (l.length - cp)

/-- Result of one quorum sync round on the coordinator: the rebuilt
tracked file list, and the names the round attempted to delete from
disk (each deletion is best-effort; failures are swallowed). -/
structure SyncOut where
  files : List PyStr
  removed : List PyStr
deriving DecidableEq

/-- Source _sync_file_list as executed on the coordinator (rank 0).
gathered is what mpi_comm.gather returned there: none models a null
result, some fl a gathered sequence of per-rank file lists.  A null
result raises RuntimeError; an empty sequence clears the tracked list
and returns early (before the broadcast and before any removal);
otherwise the surviving window is computed, re-encoded with the own
rank, and — only when remove_remainder is set — every tracked name
absent from the new list is removed from disk. -/
def sync_file_list (name : PyStr) (rank cp : Nat) (files : List PyStr)
    (gathered : Option (List (List PyStr))) (remove_remainder : Bool) :
    Except PyErr SyncOut :=
  match gathered with
  | none => .error .runtimeError
  | some [] => .ok ⟨[], []⟩
  | some fl =>
      match surviving_set name fl with
      | .error e => .error e
      | .ok s =>
          .ok ⟨filenames name rank (pyWindow cp s),
            if remove_remainder then
              files.filter (fun f => decide (¬ f ∈ filenames name rank (pyWindow cp s)))
            else []⟩

/-- Result of maybe_resume on the coordinator: rebuilt tracked list,
names removed from disk by its sync round, the iteration loaded into
the trainer (none when no common snapshot exists), and the final state
of the optional optimizer flag (none when no optimizer was supplied,
some b when its needs_broadcast attribute holds b). -/
structure ResumeOut where
  files : List PyStr
  removed : List PyStr
  loaded : Option Int
  optimizer : Option Bool
deriving DecidableEq

/-- Source maybe_resume on the coordinator.  dirlist is what
os.listdir returned (an unreadable directory is modelled by the empty
list, as the source swallows that exception); gathered is the gather
result inside the sync round; optimizer models the optional
consistency handle together with the current value of its
needs_broadcast flag.  Loading the chosen snapshot is modelled as
succeeding (a missing or corrupt file would raise from load_npz). -/
def maybe_resume (name : PyStr) (rank cp : Nat) (dirlist : List PyStr)
    (gathered : Option (List (List PyStr))) (optimizer : Option Bool) :
    Except PyErr ResumeOut :=
  match comprehend (parse_filename name) dirlist with
  | .error e => .error e
  | .ok parsed =>
      match sync_file_list name rank cp
          (filenames name rank ((parsed.filterMap id).filterMap
            (fun t => if t.1 = name ∧ t.2.1 = (rank : Int) then some t.2.2 else none)))
          gathered false with
      | .error e => .error e
      | .ok s =>
          match itersListOf name s.files with
          | .error e => .error e
          | .ok iters =>
              match iters with
              | [] => .ok ⟨s.files, s.removed, none, optimizer⟩
              | i0 :: is =>
                  .ok ⟨s.files, s.removed, some (is.foldl max i0),
                    optimizer.map (fun _ => false)⟩

/-- Source checkpoint(target, iteration) on the coordinator.  saveOk
tells whether the serialization inside _save succeeds; a failure
propagates before the new name is appended.  After appending, a sync
round with removal runs only when the tracked list has outgrown
cp_interval by more than 5.  Returns the new tracked list and the
names removed from disk. -/
def checkpoint (name : PyStr) (rank cp : Nat) (files : List PyStr) (iteration : Int)
    (saveOk : Bool) (gathered : Option (List (List PyStr))) :
    Except PyErr (List PyStr × List PyStr) :=
  if saveOk then
    if ((files ++ [filename name rank iteration]).length : Int) - (cp : Int) > 5 then
      match sync_file_list name rank cp (files ++ [filename name rank iteration])
          gathered true with
      | .error e => .error e
      | .ok o => .ok (o.files, o.removed)
    else .ok (files ++ [filename name rank iteration], [])
  else .error .ioError

/-- The controller state that finalize touches: the configured output
path (none before any path is known) and the tracked file list. -/
structure CPRState where
  path : Option PyStr
  files : List PyStr
deriving DecidableEq

/-- os.remove wrapped in try/except: deleting an absent name is a
swallowed failure, leaving the directory unchanged. -/
def osRemove (fs : FS) (f : PyStr) : FS :=
  fun m => if m = f then none else fs m

/-- Best-effort deletion of a list of names, one osRemove each. -/
def removeFiles (fs : FS) (files : List PyStr) : FS :=
  files.foldl osRemove fs

/-- Source finalize: asserts a configured path (none models the
assertion failure), best-effort deletes every tracked name, then
clears the tracked list.  Individual delete failures are swallowed
inside osRemove, so a configured path never yields an error. -/
def finalize (s : CPRState) (fs : FS) : Option (CPRState × FS) :=
  match s.path with
  | none => none
  | some _ => some (⟨s.path, []⟩, removeFiles fs s.files)

/-- Source _save on one directory.  mkstemp creates the fresh
temporary name tmp as an (initially incomplete) file; save_npz either
populates it fully or raises; on a raise the temporary is closed and
removed and the exception propagates (second component true); on
success shutil.move renames the populated temporary onto the final
name.  Returns the directory afterwards and whether an exception was
raised. -/
def save (fs : FS) (finalName tmp : PyStr) (serOk : Bool) (payload : Nat) : FS × Bool :=
  let fs1 : FS := fun m => if m = tmp then some .incomplete else fs m
  if serOk then
    let fs2 : FS := fun m => if m = tmp then some (.full payload) else fs1 m
    let fs3 : FS := fun m =>
      if m = finalName then some (.full payload)
      else if m = tmp then none else fs2 m
    (fs3, false)
  else
    (fun m => if m = tmp then none else fs1 m, true)

/-! Auxiliary facts about the decimal rendering and its parse. -/

theorem charVal_digitChar (m : Nat) (h : m < 10) : charVal (digitChar m) = some m := by
  interval_cases m <;> rfl

theorem digitChar_ne_dot (m : Nat) (h : m < 10) : digitChar m ≠ '.' := by
  interval_cases m <;> decide

theorem digitChar_ne_dash (m : Nat) (h : m < 10) : digitChar m ≠ '-' := by
  interval_cases m <;> decide

theorem natDigits_ne_nil (n : Nat) : natDigits n ≠ [] := by
  rw [natDigits_eq]
  by_cases h : n < 10 <;> simp [h]

theorem natDigits_mem (n : Nat) : ∀ c ∈ natDigits n, ∃ m, m < 10 ∧ c = digitChar m := by
  induction n using Nat.strong_induction_on with
  | _ n ih =>
      intro c hc
      rw [natDigits_eq] at hc
      by_cases h : n < 10
      · rw [if_pos h] at hc
        simp only [List.mem_singleton] at hc
        exact ⟨n, h, hc⟩
      · rw [if_neg h] at hc
        rcases List.mem_append.mp hc with h1 | h2
        · exact ih (n / 10) (Nat.div_lt_self (by omega) (by omega)) c h1
        · simp only [List.mem_singleton] at h2
          exact ⟨n % 10, Nat.mod_lt n (by omega), h2⟩

theorem valFold_append (acc : Option Nat) (l1 l2 : List Char) :
    valFold acc (l1 ++ l2) = valFold (valFold acc l1) l2 := by
  induction l1 generalizing acc with
  | nil => rfl
  | cons c cs ih => simp [valFold, ih]

theorem valFold_natDigits (n : Nat) : ∀ a : Nat,
    valFold (some a) (natDigits n) = some (a * 10 ^ (natDigits n).length + n) := by
  induction n using Nat.strong_induction_on with
  | _ n ih =>
      intro a
      rw [natDigits_eq]
      by_cases h : n < 10
      · rw [if_pos h]
        simp only [valFold, charVal_digitChar n h, List.length_singleton, pow_one,
          Option.some.injEq]
        omega
      · rw [if_neg h]
        rw [valFold_append, ih (n / 10) (Nat.div_lt_self (by omega) (by omega)) a]
        simp only [valFold, charVal_digitChar (n % 10) (Nat.mod_lt n (by omega)),
          List.length_append, List.length_singleton]
        have h1 : 10 * (a * 10 ^ (natDigits (n / 10)).length + n / 10) + n % 10 =
            a * 10 ^ (natDigits (n / 10)).length * 10 + (10 * (n / 10) + n % 10) := by ring
        rw [h1, Nat.div_add_mod]
        rw [pow_succ]
        ring_nf

theorem digitsVal_natDigits (n : Nat) : digitsVal (natDigits n) = some n := by
  rw [digitsVal, if_neg (natDigits_ne_nil n), valFold_natDigits n 0]
  norm_num

theorem pyInt_natDigits (n : Nat) : pyInt (natDigits n) = some (n : Int) := by
  rcases hl : natDigits n with _ | ⟨c, cs⟩
  · exact absurd hl (natDigits_ne_nil n)
  · obtain ⟨m, hm, hcm⟩ := natDigits_mem n c (hl ▸ List.mem_cons_self c cs)
    rw [pyInt, if_neg (hcm ▸ digitChar_ne_dash m hm), ← hl, digitsVal_natDigits]
    rfl

theorem pyInt_intDigits (i : Int) : pyInt (intDigits i) = some i := by
  rw [intDigits]
  by_cases h : i < 0
  · rw [if_pos h]
    rcases hl : natDigits i.natAbs with _ | ⟨c, cs⟩
    · exact absurd hl (natDigits_ne_nil _)
    · rw [pyInt, if_pos rfl, ← hl, digitsVal_natDigits]
      show some (-(i.natAbs : Int)) = some i
      congr 1
      omega
  · rw [if_neg h, pyInt_natDigits]
    congr 1
    omega

theorem natDigits_no_dot (n : Nat) : '.' ∉ natDigits n := by
  intro hc
  obtain ⟨m, hm, hcm⟩ := natDigits_mem n _ hc
  exact digitChar_ne_dot m hm hcm.symm

theorem intDigits_no_dot (i : Int) : '.' ∉ intDigits i := by
  rw [intDigits]
  by_cases h : i < 0
  · rw [if_pos h]
    simp only [List.mem_cons]
    rintro (h1 | h2)
    · exact absurd h1 (by decide)
    · exact natDigits_no_dot _ h2
  · rw [if_neg h]
    exact natDigits_no_dot _

/-! Auxiliary facts about the dot split. -/

theorem pySplitDot_ne_nil (l : List Char) : pySplitDot l ≠ [] := by
  cases l with
  | nil => simp [pySplitDot]
  | cons c cs =>
      rw [pySplitDot]
      split
      · simp
      · split <;> simp

theorem pySplitDot_no_dot (l : List Char) (h : '.' ∉ l) : pySplitDot l = [l] := by
  induction l with
  | nil => rfl
  | cons c cs ih =>
      rw [pySplitDot, if_neg (by intro hc; exact h (hc ▸ List.mem_cons_self c cs)),
        ih (fun hc => h (List.mem_cons_of_mem c hc))]

theorem pySplitDot_append (l1 l2 : List Char) (h : '.' ∉ l1) :
    pySplitDot (l1 ++ '.' :: l2) = l1 :: pySplitDot l2 := by
  induction l1 with
  | nil => simp [pySplitDot]
  | cons c cs ih =>
      rw [List.cons_append, pySplitDot,
        if_neg (by intro hc; exact h (hc ▸ List.mem_cons_self c cs)),
        ih (fun hc => h (List.mem_cons_of_mem c hc))]

theorem pySplitDot_filename (name : PyStr) (rank : Nat) (iteration : Int)
    (h : '.' ∉ name) :
    pySplitDot (filename name rank iteration) =
      [name, natDigits rank, intDigits iteration] := by
  have hshape : filename name rank iteration =
      name ++ '.' :: (natDigits rank ++ '.' :: intDigits iteration) := by
    simp [filename]
  rw [hshape, pySplitDot_append _ _ h,
    pySplitDot_append _ _ (natDigits_no_dot rank),
    pySplitDot_no_dot _ (intDigits_no_dot iteration)]

/-- Decoding an encoded generation of the same run recovers the
triple, for any run name free of the dot separator. -/
theorem parse_filename_filename (name : PyStr) (rank : Nat) (iteration : Int)
    (h : '.' ∉ name) :
    parse_filename name (filename name rank iteration) =
      .ok (some (name, (rank : Int), iteration)) := by
  have hs := pySplitDot_filename name rank iteration h
  simp [parse_filename, hs, pyInt_natDigits, pyInt_intDigits]

/-- C4: for every run name free of the dot separator and every pair of
non-negative rank and iteration, decoding the encoded filename with
_parse_filename returns exactly the encoded triple:
decode(encode(run, rank, iteration)) = (run, rank, iteration). -/
theorem c4_codec_roundtrip (run : PyStr) (rank iteration : Nat) (h : '.' ∉ run) :
    parse_filename run (filename run rank (iteration : Int)) =
      .ok (some (run, (rank : Int), (iteration : Int))) :=
  parse_filename_filename run rank (iteration : Int) h

/-- Witness for c4_codec_roundtrip at run name run, rank 3,
iteration 14. -/
theorem c4_codec_roundtrip_witness :
    ('.' ∉ ("run".toList : PyStr)) ∧
      parse_filename "run".toList (filename "run".toList 3 ((14 : Nat) : Int)) =
        .ok (some ("run".toList, ((3 : Nat) : Int), ((14 : Nat) : Int))) :=
  ⟨by decide, c4_codec_roundtrip "run".toList 3 14 (by decide)⟩

/-- C3 (amended): _parse_filename returns Python None, without
raising, for every filename whose dot split does not have exactly
three fields or whose first field differs from the run name, and
maybe_resume therefore silently ignores such a file in its directory
scan; but a filename with exactly three fields whose first field
equals the run name and a non-integer rank or iteration field makes
int() raise instead (see the counterexample). -/
theorem c3_unrelated_ignored (name f : PyStr) (rank cp : Nat)
    (dirlist : List PyStr) (gathered : Option (List (List PyStr))) (opt : Option Bool)
    (h : ∀ n r i : PyStr, pySplitDot f = [n, r, i] → n ≠ name) :
    parse_filename name f = .ok none ∧
      maybe_resume name rank cp (f :: dirlist) gathered opt =
        maybe_resume name rank cp dirlist gathered opt := by
  have hnone : parse_filename name f = .ok none := by
    rw [parse_filename]
    rcases hs : pySplitDot f with _ | ⟨n, _ | ⟨r, _ | ⟨i, _ | ⟨x, xs⟩⟩⟩⟩
    · rfl
    · rfl
    · rfl
    · have hne := h n r i hs
      simp [hne]
    · rfl
  refine ⟨hnone, ?_⟩
  simp only [maybe_resume, comprehend, hnone]
  cases hc : comprehend (parse_filename name) dirlist <;> simp [hc]

/-- Witness for c3_unrelated_ignored: the unrelated file hello (one
split field) decodes to None and drops out of the scan. -/
theorem c3_unrelated_ignored_witness :
    (∀ n r i : PyStr, pySplitDot "hello".toList = [n, r, i] → n ≠ "r".toList) ∧
      parse_filename "r".toList "hello".toList = .ok none ∧
      maybe_resume "r".toList 0 5 ["hello".toList, "r.0.1".toList]
          (some [["r.0.1".toList]]) none =
        maybe_resume "r".toList 0 5 ["r.0.1".toList]
          (some [["r.0.1".toList]]) none := by
  have h : ∀ n r i : PyStr, pySplitDot "hello".toList = [n, r, i] → n ≠ "r".toList := by
    intro n r i hs
    rw [show pySplitDot "hello".toList = ["hello".toList] from rfl] at hs
    exact absurd hs (by simp)
  obtain ⟨h1, h2⟩ := c3_unrelated_ignored "r".toList "hello".toList 0 5
    ["r.0.1".toList] (some [["r.0.1".toList]]) none h
  exact ⟨h, h1, h2⟩

/-- C3 counterexample: the filename r.x.5 has exactly three fields and
the first equals the run name r, but its rank field x is not a decimal
integer; _parse_filename raises ValueError instead of returning None,
and the directory scan of maybe_resume propagates that error instead
of silently ignoring the file. -/
theorem c3_counterexample :
    parse_filename "r".toList "r.x.5".toList = .error .valueError ∧
      maybe_resume "r".toList 0 5 ["r.x.5".toList] (some [[]]) none =
        .error .valueError :=
  ⟨rfl, rfl⟩

/-- C2 (amended): on the coordinator, a gathered sequence of zero
rank reports makes the round clear the tracked list and return
normally, with no broadcast, no removal and no error; only a null
gather result raises the fatal RuntimeError. -/
theorem c2_empty_gather (name : PyStr) (rank cp : Nat) (files : List PyStr) (rm : Bool) :
    sync_file_list name rank cp files (some []) rm = .ok ⟨[], []⟩ ∧
      sync_file_list name rank cp files none rm = .error .runtimeError :=
  ⟨rfl, rfl⟩

/-- C2 counterexample: with an empty gathered sequence the round
returns successfully (tracked list cleared), so it does not raise the
fatal protocol error the claim requires for that case. -/
theorem c2_counterexample :
    sync_file_list "r".toList 0 5 ["r.0.1".toList] (some []) false = .ok ⟨[], []⟩ ∧
      ¬ ∃ e, sync_file_list "r".toList 0 5 ["r.0.1".toList] (some []) false =
        .error e := by
  refine ⟨rfl, ?_⟩
  rintro ⟨e, he⟩
  rw [show sync_file_list "r".toList 0 5 ["r.0.1".toList] (some []) false =
    .ok ⟨[], []⟩ from rfl] at he
  exact Except.noConfusion he

/-! Auxiliary facts about the coordinator intersection. -/

theorem parseIter_of_wellFormed (name f : PyStr) (h : wellFormed name f = true) :
    ∃ n r i, parse_filename name f = .ok (some (n, r, i)) ∧ parseIter name f = some i := by
  rw [wellFormed] at h
  rcases hp : parse_filename name f with e | (_ | ⟨n, r, i⟩)
  · rw [hp] at h; exact absurd h (by simp)
  · rw [hp] at h; exact absurd h (by simp)
  · exact ⟨n, r, i, rfl, by rw [parseIter, hp]⟩

theorem parseIter_eq_some_iff (name f : PyStr) (i : Int) :
    parseIter name f = some i ↔ ∃ n r, parse_filename name f = .ok (some (n, r, i)) := by
  rw [parseIter]
  rcases hp : parse_filename name f with e | (_ | ⟨n, r, j⟩) <;> simp [hp]

theorem itersListOf_wf (name : PyStr) (l : List PyStr)
    (h : ∀ f ∈ l, wellFormed name f = true) :
    itersListOf name l = .ok (l.filterMap (parseIter name)) := by
  induction l with
  | nil => rfl
  | cons f fs ih =>
      obtain ⟨n, r, i, hp, hi⟩ :=
        parseIter_of_wellFormed name f (h f (List.mem_cons_self f fs))
      have ihh := ih (fun g hg => h g (List.mem_cons_of_mem f hg))
      rw [itersListOf] at ihh
      cases hc : comprehend (parse_filename name) fs with
      | error e => rw [hc] at ihh; exact absurd ihh (by simp)
      | ok parsed =>
          rw [hc] at ihh
          dsimp only at ihh
          simp only [itersListOf, comprehend, hp, hc, destructIter,
            List.filterMap_cons, hi]
          rw [ihh]

theorem itersOf_wf (name : PyStr) (l : List PyStr)
    (h : ∀ f ∈ l, wellFormed name f = true) :
    itersOf name l = .ok ((l.filterMap (parseIter name)).dedup) := by
  rw [itersOf, itersListOf_wf name l h]

theorem mem_iterSet (name : PyStr) (l : List PyStr) (i : Int) :
    i ∈ (l.filterMap (parseIter name)).dedup ↔ ∃ f ∈ l, parseIter name f = some i := by
  rw [List.mem_dedup, List.mem_filterMap]

theorem mem_pyInter (a b : List Int) (i : Int) : i ∈ pyInter a b ↔ i ∈ a ∧ i ∈ b := by
  simp [pyInter, List.mem_filter]

theorem interFold_wf (name : PyStr) (ls : List (List PyStr))
    (h : ∀ l ∈ ls, ∀ f ∈ l, wellFormed name f = true) :
    ∀ acc, interFold name acc ls =
      .ok (ls.foldl (fun a l => pyInter a ((l.filterMap (parseIter name)).dedup)) acc) := by
  induction ls with
  | nil => intro acc; rfl
  | cons l ls ih =>
      intro acc
      rw [interFold, itersOf_wf name l (h l (List.mem_cons_self l ls)),
        List.foldl_cons]
      exact ih (fun g hg => h g (List.mem_cons_of_mem l hg)) _

theorem mem_foldl_pyInter (g : List PyStr → List Int) (ls : List (List PyStr)) :
    ∀ (acc : List Int) (i : Int),
      i ∈ ls.foldl (fun a l => pyInter a (g l)) acc ↔ i ∈ acc ∧ ∀ l ∈ ls, i ∈ g l := by
  induction ls with
  | nil => intro acc i; simp
  | cons l ls ih =>
      intro acc i
      rw [List.foldl_cons, ih]
      rw [mem_pyInter]
      constructor
      · rintro ⟨⟨h1, h2⟩, h3⟩
        exact ⟨h1, by simpa using And.intro h2 h3⟩
      · rintro ⟨h1, h23⟩
        simp only [List.mem_cons] at h23
        exact ⟨⟨h1, h23 l (Or.inl rfl)⟩, fun m hm => h23 m (Or.inr hm)⟩

/-- C5: for every non-empty gathered family whose filenames all decode
to generations of this run, the surviving iteration set computed on
the coordinator before windowing contains an iteration exactly when
every gathered list holds a file decoding to that iteration — the
intersection over all ranks. -/
theorem c5_intersection (name : PyStr) (fl : List (List PyStr))
    (hne : fl ≠ [])
    (hwf : ∀ l ∈ fl, ∀ f ∈ l, wellFormed name f = true) :
    ∃ S, surviving_set name fl = .ok S ∧
      ∀ i : Int, i ∈ S ↔
        ∀ l ∈ fl, ∃ f ∈ l, ∃ n r, parse_filename name f = .ok (some (n, r, i)) := by
  match fl, hne with
  | l0 :: rest, _ =>
      rw [surviving_set, itersOf_wf name l0 (hwf l0 (List.mem_cons_self l0 rest))]
      dsimp only
      rw [interFold_wf name rest (fun g hg => hwf g (List.mem_cons_of_mem l0 hg))]
      refine ⟨_, rfl, fun i => ?_⟩
      rw [mem_foldl_pyInter, mem_iterSet]
      constructor
      · rintro ⟨h0, hrest⟩ l hl
        rcases List.mem_cons.mp hl with rfl | hl
        · obtain ⟨f, hf, hp⟩ := h0
          exact ⟨f, hf, (parseIter_eq_some_iff name f i).mp hp⟩
        · obtain ⟨f, hf, hp⟩ := (mem_iterSet name l i).mp (hrest l hl)
          exact ⟨f, hf, (parseIter_eq_some_iff name f i).mp hp⟩
      · intro hall
        constructor
        · obtain ⟨f, hf, hp⟩ := hall l0 (List.mem_cons_self l0 rest)
          exact ⟨f, hf, (parseIter_eq_some_iff name f i).mpr hp⟩
        · intro l hl
          obtain ⟨f, hf, hp⟩ := hall l (List.mem_cons_of_mem l0 hl)
          exact (mem_iterSet name l i).mpr
            ⟨f, hf, (parseIter_eq_some_iff name f i).mpr hp⟩

/-- Witness for c5_intersection at the three-rank example of the
specification: rank0 holds 10,20,30, rank1 holds 20,30,40, rank2 holds
20,30. -/
theorem c5_intersection_witness :
    (([["r.0.10".toList, "r.0.20".toList, "r.0.30".toList],
       ["r.1.20".toList, "r.1.30".toList, "r.1.40".toList],
       ["r.2.20".toList, "r.2.30".toList]] : List (List PyStr)) ≠ []) ∧
      (∀ l ∈ ([["r.0.10".toList, "r.0.20".toList, "r.0.30".toList],
       ["r.1.20".toList, "r.1.30".toList, "r.1.40".toList],
       ["r.2.20".toList, "r.2.30".toList]] : List (List PyStr)),
        ∀ f ∈ l, wellFormed "r".toList f = true) ∧
      ∃ S, surviving_set "r".toList
          [["r.0.10".toList, "r.0.20".toList, "r.0.30".toList],
           ["r.1.20".toList, "r.1.30".toList, "r.1.40".toList],
           ["r.2.20".toList, "r.2.30".toList]] = .ok S ∧
        ∀ i : Int, i ∈ S ↔
          ∀ l ∈ ([["r.0.10".toList, "r.0.20".toList, "r.0.30".toList],
           ["r.1.20".toList, "r.1.30".toList, "r.1.40".toList],
           ["r.2.20".toList, "r.2.30".toList]] : List (List PyStr)),
            ∃ f ∈ l, ∃ n r, parse_filename "r".toList f = .ok (some (n, r, i)) :=
  ⟨by decide, by decide, c5_intersection "r".toList _ (by decide) (by decide)⟩

theorem pyWindow_eq (cp : Nat) (s : List Int) :
    pyWindow cp s = (s.insertionSort (fun a b => a ≤ b)).drop
      ((s.insertionSort (fun a b => a ≤ b)).length - cp) := rfl

/-- C6: the windowing step sorts the surviving iterations ascending
and keeps exactly the cp_interval largest of them: the result is a
sorted selection from the surviving set, of length cp_interval (or the
whole set when it is smaller), and every surviving iteration that is
dropped is strictly below every kept one. -/
theorem c6_windowing (cp : Nat) (s : List Int) (h : s.Nodup) :
    List.Sorted (fun a b : Int => a ≤ b) (pyWindow cp s) ∧
      (pyWindow cp s).length = min cp s.length ∧
      (∀ x, x ∈ pyWindow cp s → x ∈ s) ∧
      (∀ x, x ∈ s → x ∉ pyWindow cp s → ∀ y, y ∈ pyWindow cp s → x < y) := by
  have hperm : (s.insertionSort (fun a b : Int => a ≤ b)).Perm s :=
    List.perm_insertionSort _ s
  have hp : (s.insertionSort (fun a b : Int => a ≤ b)).Pairwise (fun a b : Int => a ≤ b) :=
    List.sorted_insertionSort _ s
  have hnd : (s.insertionSort (fun a b : Int => a ≤ b)).Nodup := hperm.nodup_iff.mpr h
  have hlen : (s.insertionSort (fun a b : Int => a ≤ b)).length = s.length := hperm.length_eq
  rw [pyWindow_eq]
  set l := s.insertionSort (fun a b : Int => a ≤ b) with hl
  set k := l.length - cp with hk
  refine ⟨?_, ?_, ?_, ?_⟩
  · exact hp.sublist (List.drop_sublist k l)
  · rw [List.length_drop]
    omega
  · intro x hx
    exact hperm.mem_iff.mp ((List.drop_sublist k l).subset hx)
  · intro x hxs hxnot y hy
    have hxl : x ∈ l := hperm.mem_iff.mpr hxs
    have hxt : x ∈ l.take k := by
      have hsplit : x ∈ l.take k ++ l.drop k := by
        rw [List.take_append_drop]; exact hxl
      rcases List.mem_append.mp hsplit with h1 | h2
      · exact h1
      · exact absurd h2 hxnot
    have hp2 : (l.take k ++ l.drop k).Pairwise (fun a b : Int => a ≤ b) := by
      rw [List.take_append_drop]; exact hp
    have hnd2 : (l.take k ++ l.drop k).Pairwise (fun a b : Int => a ≠ b) := by
      rw [List.take_append_drop]; exact hnd
    have hle : x ≤ y := (List.pairwise_append.mp hp2).2.2 x hxt y hy
    have hne : x ≠ y := (List.pairwise_append.mp hnd2).2.2 x hxt y hy
    exact lt_of_le_of_ne hle hne

/-- Witness for c6_windowing at the twenty-iteration example of the
specification with cp_interval 5, whose window is 80,85,90,95,100. -/
theorem c6_windowing_witness :
    ([5, 10, 15, 20, 25, 30, 35, 40, 45, 50,
      55, 60, 65, 70, 75, 80, 85, 90, 95, 100] : List Int).Nodup ∧
      pyWindow 5 [5, 10, 15, 20, 25, 30, 35, 40, 45, 50,
        55, 60, 65, 70, 75, 80, 85, 90, 95, 100] = [80, 85, 90, 95, 100] ∧
      (∀ x, x ∈ pyWindow 5 [5, 10, 15, 20, 25, 30, 35, 40, 45, 50,
        55, 60, 65, 70, 75, 80, 85, 90, 95, 100] →
        x ∈ ([5, 10, 15, 20, 25, 30, 35, 40, 45, 50,
          55, 60, 65, 70, 75, 80, 85, 90, 95, 100] : List Int)) :=
  ⟨by decide, by decide,
    (c6_windowing 5 [5, 10, 15, 20, 25, 30, 35, 40, 45, 50,
      55, 60, 65, 70, 75, 80, 85, 90, 95, 100] (by decide)).2.2.1⟩

/-- In every successful round without removal nothing is deleted. -/
theorem sync_file_list_false_removed (name : PyStr) (rank cp : Nat) (files : List PyStr)
    (gathered : Option (List (List PyStr))) (out : SyncOut)
    (h : sync_file_list name rank cp files gathered false = .ok out) :
    out.removed = [] := by
  rw [sync_file_list.eq_def] at h
  split at h
  · exact absurd h (by simp)
  · injection h with h; subst h; rfl
  · split at h
    · exact absurd h (by simp)
    · injection h with h; subst h; rfl

/-- The rebuilt tracked list of a successful round has at most
cp_interval entries. -/
theorem sync_file_list_files_le (name : PyStr) (rank cp : Nat) (files : List PyStr)
    (gathered : Option (List (List PyStr))) (rm : Bool) (out : SyncOut)
    (h : sync_file_list name rank cp files gathered rm = .ok out) :
    out.files.length ≤ cp := by
  have hw : ∀ s : List Int, (pyWindow cp s).length ≤ cp := by
    intro s
    rw [pyWindow_eq, List.length_drop]
    omega
  rw [sync_file_list.eq_def] at h
  split at h
  · exact absurd h (by simp)
  · injection h with h; subst h; simp
  · split at h
    · exact absurd h (by simp)
    · injection h with h; subst h
      show (filenames name rank (pyWindow cp _)).length ≤ cp
      rw [filenames, List.length_map]
      exact hw _

/-- C1 (amended): whenever maybe_resume returns normally, the
consistency handle is marked as not needing a post-resume broadcast
exactly when some common iteration was adopted (a complete resume, but
also a fallback to a lower common iteration) and a handle was
supplied; when no common iteration exists, the handle is left
untouched. -/
theorem c1_broadcast_flag (name : PyStr) (rank cp : Nat) (dirlist : List PyStr)
    (gathered : Option (List (List PyStr))) (opt : Option Bool) (out : ResumeOut)
    (h : maybe_resume name rank cp dirlist gathered opt = .ok out) :
    out.optimizer = if out.loaded.isSome ∧ opt.isSome then some false else opt := by
  rw [maybe_resume] at h
  split at h
  · exact absurd h (by simp)
  · split at h
    · exact absurd h (by simp)
    · split at h
      · exact absurd h (by simp)
      · split at h
        · injection h with h; subst h; simp
        · injection h with h; subst h; cases opt <;> simp

/-- Witness for c1_broadcast_flag at a resume that finds no common
iteration: the handle keeps its prior value true. -/
theorem c1_broadcast_flag_witness :
    maybe_resume "r".toList 0 5 [] (some [[]]) (some true) =
        .ok ⟨[], [], none, some true⟩ ∧
      (ResumeOut.mk [] [] none (some true)).optimizer =
        (if (ResumeOut.mk [] [] none (some true)).loaded.isSome ∧
            (some true : Option Bool).isSome
          then some false else some true) :=
  ⟨rfl, c1_broadcast_flag "r".toList 0 5 [] (some [[]]) (some true) _ rfl⟩

/-- C1 counterexample: ranks 0 and 1 wrote iterations 3 and 5 but rank
2 only wrote iteration 3, so the resume falls back to the common
iteration 3, below the newest iteration 5 that some ranks wrote.  The
claim requires the supplied handle to be marked as needing a
post-resume broadcast; the code instead sets needs_broadcast to false,
marking it as not needing one, exactly as in a complete resume. -/
theorem c1_counterexample :
    maybe_resume "r".toList 0 5 ["r.0.3".toList, "r.0.5".toList]
        (some [["r.0.3".toList, "r.0.5".toList],
               ["r.1.3".toList, "r.1.5".toList],
               ["r.2.3".toList]])
        (some true) =
      .ok ⟨["r.0.3".toList], [], some 3, some false⟩ := rfl

/-- C9: a round called without removal (as maybe_resume always calls
it) deletes nothing, whatever the gather produced; and a round called
with removal on a non-degenerate gather deletes exactly the tracked
names absent from the rebuilt list. -/
theorem c9_removal (name : PyStr) (rank cp : Nat) (files : List PyStr)
    (gathered : Option (List (List PyStr))) :
    (∀ out, sync_file_list name rank cp files gathered false = .ok out →
      out.removed = []) ∧
    (∀ dirlist opt out, maybe_resume name rank cp dirlist gathered opt = .ok out →
      out.removed = []) ∧
    (∀ fl out, gathered = some fl → fl ≠ [] →
      sync_file_list name rank cp files gathered true = .ok out →
      ∀ f, f ∈ out.removed ↔ f ∈ files ∧ f ∉ out.files) := by
  refine ⟨fun out h => sync_file_list_false_removed name rank cp files gathered out h,
    ?_, ?_⟩
  · intro dirlist opt out h
    rw [maybe_resume] at h
    split at h
    · exact absurd h (by simp)
    · split at h
      · exact absurd h (by simp)
      · rename_i s heq
        split at h
        · exact absurd h (by simp)
        · split at h
          · injection h with h; subst h
            exact sync_file_list_false_removed _ _ _ _ _ _ heq
          · injection h with h; subst h
            exact sync_file_list_false_removed _ _ _ _ _ _ heq
  · rintro fl out rfl hne h f
    rcases fl with _ | ⟨l0, rest⟩
    · exact absurd rfl hne
    · rw [sync_file_list.eq_def] at h
      dsimp only at h
      split at h
      · exact absurd h (by simp)
      · injection h with h; subst h
        simp [List.mem_filter]

/-- C10: whenever checkpoint returns normally on the coordinator, the
tracked generation list holds at most cp_interval + 5 entries: either
no sync was triggered and the appended list was already within the
bound, or the sync rebuilt it from a window of at most cp_interval
iterations. -/
theorem c10_tracked_bound (name : PyStr) (rank cp : Nat) (files : List PyStr)
    (iteration : Int) (saveOk : Bool) (gathered : Option (List (List PyStr)))
    (files2 removed : List PyStr)
    (h : checkpoint name rank cp files iteration saveOk gathered = .ok (files2, removed)) :
    files2.length ≤ cp + 5 := by
  rw [checkpoint] at h
  split at h
  · split at h
    · split at h
      · exact absurd h (by simp)
      · rename_i o heq
        injection h with h
        rw [Prod.mk.injEq] at h
        obtain ⟨hf, _⟩ := h
        subst hf
        exact le_trans (sync_file_list_files_le _ _ _ _ _ _ _ heq) (by omega)
    · rename_i hlen
      injection h with h
      rw [Prod.mk.injEq] at h
      obtain ⟨hf, _⟩ := h
      subst hf
      simp only [List.length_append, List.length_singleton]
      simp only [List.length_append, List.length_singleton, not_lt] at hlen
      omega
  · exact absurd h (by simp)

/-- Witness for c10_tracked_bound: one checkpoint on an empty tracked
list with cp_interval 5 yields a single tracked entry, within 10. -/
theorem c10_tracked_bound_witness :
    checkpoint "r".toList 0 5 [] 7 true none = .ok (["r.0.7".toList], []) ∧
      (["r.0.7".toList] : List PyStr).length ≤ 5 + 5 :=
  ⟨rfl, c10_tracked_bound "r".toList 0 5 [] 7 true none ["r.0.7".toList] [] rfl⟩

/-- C7: when serialization fails, _save reports the failure, the
directory is exactly as before (the temporary was removed, the final
name was never created, every previously written generation is
untouched); when it succeeds, exactly the final name changes, to the
fully-populated payload, and the temporary is gone; and under either
outcome no incompletely written file is ever observable under the final
name. -/
theorem c7_atomic_save (fs : FS) (finalName tmp : PyStr) (payload : Nat)
    (hfresh : fs tmp = none) (hne : tmp ≠ finalName) :
    ((save fs finalName tmp false payload).2 = true ∧
      ∀ m, (save fs finalName tmp false payload).1 m = fs m) ∧
    ((save fs finalName tmp true payload).2 = false ∧
      (save fs finalName tmp true payload).1 finalName = some (.full payload) ∧
      (save fs finalName tmp true payload).1 tmp = none ∧
      ∀ m, m ≠ finalName → m ≠ tmp → (save fs finalName tmp true payload).1 m = fs m) ∧
    (∀ serOk : Bool, fs finalName ≠ some .incomplete →
      (save fs finalName tmp serOk payload).1 finalName ≠ some .incomplete) := by
  refine ⟨⟨rfl, fun m => ?_⟩, ⟨rfl, ?_, ?_, fun m hmf hmt => ?_⟩, fun serOk hinc => ?_⟩
  · show (if m = tmp then none else if m = tmp then some .incomplete else fs m) = fs m
    by_cases hm : m = tmp
    · rw [if_pos hm, hm, hfresh]
    · rw [if_neg hm, if_neg hm]
  · show (if finalName = finalName then _ else _) = _
    rw [if_pos rfl]
  · show (if tmp = finalName then _ else if tmp = tmp then none else _) = none
    rw [if_neg hne, if_pos rfl]
  · show (if m = finalName then _ else if m = tmp then none
      else if m = tmp then some (.full payload) else if m = tmp then some .incomplete
      else fs m) = fs m
    rw [if_neg hmf, if_neg hmt, if_neg hmt, if_neg hmt]
  · cases serOk
    · show (if finalName = tmp then none else if finalName = tmp then some .incomplete
        else fs finalName) ≠ some .incomplete
      rw [if_neg (fun hc => hne hc.symm), if_neg (fun hc => hne hc.symm)]
      exact hinc
    · show (if finalName = finalName then some (FileContent.full payload) else _) ≠
        some FileContent.incomplete
      rw [if_pos rfl]
      simp

/-- Witness for c7_atomic_save on an empty directory with final name a
and temporary name tmp-a. -/
theorem c7_atomic_save_witness :
    ((fun _ : PyStr => (none : Option FileContent)) "tmp-a".toList = none) ∧
      ("tmp-a".toList ≠ "a".toList) ∧
      ((save (fun _ => none) "a".toList "tmp-a".toList true 7).1 "a".toList =
        some (.full 7) ∧
       (save (fun _ => none) "a".toList "tmp-a".toList false 7).2 = true) := by
  have h := c7_atomic_save (fun _ => none) "a".toList "tmp-a".toList 7 rfl (by decide)
  exact ⟨rfl, by decide, h.2.1.2.1, h.1.1⟩

/-- C8: with a configured path, finalize returns normally, leaving no
tracked generation, and a second finalize also returns normally, again
with no tracked generation and without touching the directory: the
second call is a no-op on disk.  Deletion failures cannot abort either
call, since osRemove swallows them. -/
theorem c8_finalize_idempotent (s : CPRState) (fs : FS) (p : PyStr) (h : s.path = some p) :
    finalize s fs = some (⟨s.path, []⟩, removeFiles fs s.files) ∧
      finalize ⟨s.path, []⟩ (removeFiles fs s.files) =
        some (⟨s.path, []⟩, removeFiles fs s.files) := by
  constructor
  · rw [finalize.eq_def, h]
  · rw [finalize.eq_def]
    dsimp only
    rw [h]
    rfl

/-- Witness for c8_finalize_idempotent at a state tracking one file in
an empty directory. -/
theorem c8_finalize_idempotent_witness :
    (CPRState.mk (some "out".toList) ["r.0.1".toList]).path = some "out".toList ∧
      finalize (CPRState.mk (some "out".toList) ["r.0.1".toList]) (fun _ => none) =
        some (⟨some "out".toList, []⟩,
          removeFiles (fun _ => none) ["r.0.1".toList]) := by
  have h := c8_finalize_idempotent (CPRState.mk (some "out".toList) ["r.0.1".toList])
    (fun _ => none) "out".toList rfl
  exact ⟨rfl, h.1⟩

end DistCpr
